import Mathlib

/-!
Verification development for the logius-chat RAG backend.

Shallow embedding of the query-processing pipeline and its adapters:
`redis_service.py` (session store), `base_template.py` (prompt assembly),
`pinecone_service.py` (similarity search and fragment resolution),
`rag_service.py` (orchestrator `process_query`) and `api/views.py`
(request boundary).  External collaborators (embedding backend, vector
index, relational store, filesystem, generation backend, wall clock) are
modelled as explicit environment fields; machine floats are modelled as
exact integers since no claim depends on rounding.
-/

set_option maxRecDepth 4096

namespace LogiusChat

/-- A chat message as stored in the session list.  `log_message` serialises a
dict with keys role, content, timestamp via `json.dumps`, and
`get_chat_history` parses it back with `json.loads`; since the JSON
round-trip is the identity on these records, the stored value is modelled as
the record itself. -/
structure Message where
  role : String
  content : String
  timestamp : String
deriving DecidableEq, Repr

/-- State of the session store (redis).  `available = false` models the redis
client raising on every operation (connection failure / store down);
`hashes` models hash-valued keys (`hset`), `lists` models list-valued keys
(`rpush` appends at the right, `lrange 0 -1` reads left to right, so index 0
is the oldest entry).  TTL bookkeeping (`expire`) is not modelled: no claim
mentions expiry. -/
structure RedisState where
  available : Bool
  hashes : String → List (String × String)
  lists : String → List Message

/-- The redis key holding a session's message list (`f"chat:{chat_id}:messages"`). -/
def messagesKey (chat_id : String) : String :=
  "chat:" ++ chat_id ++ ":messages"

/-- The redis key holding a session's metadata hash (`f"chat:{chat_id}"`). -/
def metaKey (chat_id : String) : String :=
  "chat:" ++ chat_id

/-- Setting one field of a redis hash (`hset`). -/
def setField (h : List (String × String)) (field value : String) : List (String × String) :=
  (h.filter (fun e => e.1 ≠ field)) ++ [(field, value)]

/-- redis_service.create_chat_session: generates a fresh uuid (modelled as the
parameter `freshId`), stores the creation timestamp in the session hash and
sets TTLs on both keys (TTL not modelled); the messages list itself is not
touched.  Returns the session id. -/
def create_chat_session (rs : RedisState) (freshId now : String) : String × RedisState :=
  (freshId,
    { rs with
      hashes := fun k =>
        if k = metaKey freshId then setField (rs.hashes k) "created_at" now else rs.hashes k })

/-- redis_service.log_message: appends the (role, content, timestamp) record to
the session's message list and returns True; any store failure is caught and
turned into a False return with no state change. -/
def log_message (rs : RedisState) (chat_id role content now : String) : Bool × RedisState :=
  if rs.available then
    (true,
      { rs with
        lists := fun k =>
          if k = messagesKey chat_id then rs.lists k ++ [⟨role, content, now⟩]
          else rs.lists k })
  else
    (false, rs)

/-- redis_service.get_chat_history: reads the whole message list
(`lrange 0 -1`) and parses each entry; any store failure is caught and turned
into an empty result. -/
def get_chat_history (rs : RedisState) (chat_id : String) : List Message :=
  if rs.available then rs.lists (messagesKey chat_id) else []

/-- redis_service.format_chat_history_for_prompt: empty string when there is no
history, otherwise a fixed header followed by one "User: ..." or
"Assistant: ..." line pair per message. -/
def format_chat_history_for_prompt (rs : RedisState) (chat_id : String) : String :=
  let messages := get_chat_history rs chat_id
  if messages.isEmpty then ""
  else
    "Previous conversation:\n\n" ++
      String.join (messages.map (fun m =>
        (if m.role = "user" then "User" else "Assistant") ++ ": " ++ m.content ++ "\n\n"))

/-- The fixed localized (Dutch) instruction header opening every prompt. -/
def promptInstructionHeader : String :=
  "\nBeantwoord de volgende vraag op basis van de verstrekte context.\nGeef een zo volledig en nauwkeurig mogelijk antwoord. \nLet op technische details.\n\n"

/-- The fixed text between the history block and the query. -/
def promptQueryMarker : String := "\n\n**Vraag:** "

/-- The fixed text between the query and the context block. -/
def promptContextMarker : String := "\n\n**Context:** "

/-- The fixed localized closing instruction (fixes the response language). -/
def promptFooter : String := "\n\nAntwoord in het Nederlands.\n"

/-- prompt_layer/base_template.create_prompt: the f-string template, written as
the concatenation the interpolation denotes. -/
def create_prompt (query context chat_history : String) : String :=
  promptInstructionHeader ++ chat_history ++ promptQueryMarker ++ query ++
    promptContextMarker ++ context ++ promptFooter

/-- Folding log_message over a list of (role, content, timestamp) triples,
keeping only the resulting state (the source calls log_message once per
message). -/
def logAll (rs : RedisState) (chat_id : String) (entries : List (String × String × String)) : RedisState :=
  entries.foldl (fun s e => (log_message s chat_id e.1 e.2.1 e.2.2).2) rs

/-! String primitives.  The corresponding core String functions are defined by
well-founded recursion over byte positions and do not reduce inside the
kernel, so the Python string operations the code uses are embedded as
structural operations over the underlying character list. -/

/-- Character-level drop (Python slicing `s[n:]` with an ASCII-safe index). -/
def strDrop (s : String) (n : Nat) : String :=
  ⟨s.data.drop n⟩

/-- Python `s.startswith(pre)`. -/
def strStartsWith (s pre : String) : Bool :=
  pre.data.isPrefixOf s.data

/-- Python `s.endswith(suf)`. -/
def strEndsWith (s suf : String) : Bool :=
  suf.data.isSuffixOf s.data

/-- Python `s.replace(a, b)` for one-character patterns. -/
def replaceChar (a b : Char) (s : String) : String :=
  ⟨s.data.map (fun c => if c = a then b else c)⟩

/-- Splitting a character list at every occurrence of `c` (accumulator holds
the current segment reversed). -/
def splitOnCharAux (c : Char) : List Char → List Char → List (List Char)
  | [], acc => [acc.reverse]
  | x :: xs, acc =>
    if x = c then acc.reverse :: splitOnCharAux c xs []
    else splitOnCharAux c xs (x :: acc)

/-- Python `s.split(c)` for a one-character separator (also `str(Path).split('/')`). -/
def splitOnChar (c : Char) (s : String) : List String :=
  (splitOnCharAux c s.data []).map (fun l => ⟨l⟩)

/-- One vector-index match: the two metadata fields the code reads.  `none`
models a missing key. -/
structure PMatch where
  chunk_id : Option String
  file_path : Option String
deriving DecidableEq, Repr

/-- Python truthiness of `metadata.get(key)`: false for a missing key and for
the empty string. -/
def truthy : Option String → Bool
  | none => false
  | some s => s ≠ ""

/-- `path.replace('\\', '/')`: normalise path separators character by
character. -/
def normalizePath (s : String) : String :=
  replaceChar '\\' '/' s

/-- The body of the match loop of pinecone_service.search_similar_documents
(lines 150-168).  State is (accumulated identifiers, seen set, kept as a
list).  A truthy unseen chunk_id is appended; otherwise (chunk_id missing,
empty, or already seen) a truthy file_path is appended after separator
normalisation — note the source performs the `not in seen_paths` test on the
raw file_path and only then normalises what it appends and records. -/
def extractStep (st : List String × List String) (m : PMatch) : List String × List String :=
  if truthy m.chunk_id ∧ m.chunk_id.getD "" ∉ st.2 then
    (st.1 ++ [m.chunk_id.getD ""], m.chunk_id.getD "" :: st.2)
  else if truthy m.file_path ∧ m.file_path.getD "" ∉ st.2 then
    (st.1 ++ [normalizePath (m.file_path.getD "")], normalizePath (m.file_path.getD "") :: st.2)
  else st

/-- Candidate-identifier extraction from the list of index matches. -/
def extract_chunk_ids (ms : List PMatch) : List String :=
  (ms.foldl extractStep ([], [])).1

/-- Boolean side condition: every file_path in the matches is already in
normalised form (contains no backslash), stated as `normalizePath` fixing it. -/
def fpNormalized (ms : List PMatch) : Bool :=
  ms.all (fun m => normalizePath (m.file_path.getD "") == m.file_path.getD "")

/-- A row of the Chunk table (documents/models.py): globally unique chunk_id,
text content, nullable embedding vector, free-form metadata mapping (modelled
as an association list with stringified values), creation timestamp, and the
owning document's title (`chunk.document.title`, `none` modelling the
`if chunk.document` guard failing). -/
structure ChunkRec where
  chunk_id : String
  content : String
  embedding : Option (List Int)
  metadata : List (String × String)
  created_at : Nat
  docTitle : Option String
deriving DecidableEq, Repr

/-- Dot product as computed by documents/services.search_chunks line 175:
`sum(a * b for a, b in zip(query_embedding, chunk_embedding))`. -/
def dotProduct (a b : List Int) : Int :=
  ((a.zip b).map (fun p => p.1 * p.2)).sum

/-- Insert one chunk into a list sorted by descending created_at (helper for
the SQL `ORDER BY created_at DESC` of the queryset `order_by('-created_at')`). -/
def insertByCreatedDesc (c : ChunkRec) : List ChunkRec → List ChunkRec
  | [] => [c]
  | x :: xs =>
    if x.created_at < c.created_at then c :: x :: xs else x :: insertByCreatedDesc c xs

/-- `order_by('-created_at')`: sort descending by created_at (SQL leaves tie
order unspecified; insertion sort picks one such order). -/
def orderByCreatedDesc (l : List ChunkRec) : List ChunkRec :=
  l.foldr insertByCreatedDesc []

/-- The process-wide environment: one field per external collaborator.
`embed` is the embedding backend (`get_embedding`; `none` is its "no
embedding" sentinel covering unreachable / misconfigured / malformed-output
failures); `pinecone` is the vector-index query as a function of the query
vector and top_k (`none` collapses the package-missing, credential-missing
and query-exception paths, which all fall through identically); `db` is the
relational Chunk table (`none` collapses DATABASE_AVAILABLE = False and a
raising queryset, which fall through identically); `fs` is the filesystem as
a finite path-to-content map; `base` is settings.BASE_DIR (= the BASE_DIR
computed in rag_service.py); `generate` is the generation backend
(generate_response, total: its own failures already degrade to fixed apology
strings inside the adapter); `now` is the wall clock reading used for
message timestamps. -/
structure Env where
  embed : String → Option (List Int)
  pinecone : List Int → Nat → Option (List PMatch)
  db : Option (List ChunkRec)
  fs : List (String × String)
  base : String
  generate : String → String
  now : String

/-- The identifiers obtained from the vector index: extraction applied to the
matches when the query succeeded, the empty list on any failure path. -/
def pineconeIds (env : Env) (embedding : List Int) (top_k : Nat) : List String :=
  match env.pinecone embedding top_k with
  | some ms => extract_chunk_ids ms
  | none => []

/-- pinecone_service.search_similar_documents: vector index first; when that
yields no identifiers, fall back to the relational store, returning the
chunk_ids of the `top_k` most recently created chunks having a non-null
embedding; empty when both are unavailable or empty.  The source declares
`top_k=50` as default; call sites pass it explicitly here. -/
def search_similar_documents (env : Env) (embedding : List Int) (top_k : Nat) : List String :=
  let fromIndex := pineconeIds env embedding top_k
  if fromIndex.isEmpty then
    match env.db with
    | some tbl =>
      let withEmbeddings := tbl.filter (fun c => c.embedding.isSome)
      if withEmbeddings.isEmpty then []
      else ((orderByCreatedDesc withEmbeddings).take top_k).map (fun c => c.chunk_id)
    | none => []
  else fromIndex

/-- `Chunk.objects.filter(chunk_id=chunk_id).first()`: the first row matching
the chunk_id (at most one exists, chunk_id being unique). -/
def dbFirst (tbl : List ChunkRec) (chunk_id : String) : Option ChunkRec :=
  tbl.find? (fun c => c.chunk_id == chunk_id)

/-- Filesystem read: content of the file at `p`, `none` when no regular file
exists there. -/
def fsLookup (env : Env) (p : String) : Option String :=
  (env.fs.find? (fun e => e.1 == p)).map (fun e => e.2)

/-- os.path.basename: the substring after the last slash (empty for a path
ending in a slash). -/
def basename (p : String) : String :=
  (splitOnChar '/' p).getLastD ""

/-- pathlib `Path(p).name`: the last nonempty path component. -/
def pathName (p : String) : String :=
  ((splitOnChar '/' p).filter (fun s => s ≠ "")).getLastD ""

/-- pathlib `Path(p).parent.name`. -/
def parentName (p : String) : String :=
  pathName (String.intercalate "/" ((splitOnChar '/' p).dropLast))

/-- os.path.join of two components: an absolute second component replaces the
first. -/
def pyJoin (a b : String) : String :=
  if strStartsWith b "/" then b
  else if a = "" then b
  else if strEndsWith a "/" then a ++ b
  else a ++ "/" ++ b

/-- `os.path.join(BASE_DIR, 'data', 'chunks')`. -/
def chunksDirOf (base : String) : String :=
  pyJoin (pyJoin base "data") "chunks"

/-- The four path candidates both resolver functions try, in order: the raw
(normalised) path, the path under BASE_DIR, the basename inside the
data/chunks directory, and the path inside the data/chunks directory. -/
def pathsToTry (base fp : String) : List String :=
  [fp, pyJoin base fp, pyJoin (chunksDirOf base) (basename fp), pyJoin (chunksDirOf base) fp]

/-- The shared candidate-path loop of get_chunk_content and
get_chunks_for_display: walk the candidates in order and return the first
(path, content) whose file exists with truthy content not yet seen; a path
whose content is empty or already seen does NOT stop the walk (the `break`
sits inside the freshness test). -/
def findFreshContent (env : Env) (seen : List String) : List String → Option (String × String)
  | [] => none
  | p :: rest =>
    match fsLookup env p with
    | some content =>
      if content ≠ "" ∧ content ∉ seen then some (p, content)
      else findFreshContent env seen rest
    | none => findFreshContent env seen rest

/-- The database-id pattern skipped by the filesystem passes:
`chunk_id.startswith("chunk_") and chunk_id[6:].isdigit()` (Python isdigit is
false on the empty string). -/
def chunkIdSkip (chunk_id : String) : Bool :=
  strStartsWith chunk_id "chunk_" && !(strDrop chunk_id 6).data.isEmpty &&
    (strDrop chunk_id 6).data.all Char.isDigit

/-- One step of get_chunk_content's database pass: append the chunk's content
when the row exists with truthy content not yet seen.  State is (collected
contents, seen contents as a list). -/
def gccDbStep (tbl : List ChunkRec) (st : List String × List String) (chunk_id : String) :
    List String × List String :=
  match dbFirst tbl chunk_id with
  | some c =>
    if c.content ≠ "" ∧ c.content ∉ st.2 then (st.1 ++ [c.content], c.content :: st.2)
    else st
  | none => st

/-- One step of get_chunk_content's filesystem pass: skip database-pattern ids,
normalise separators, and append the first fresh content found among the
candidate paths. -/
def gccFsStep (env : Env) (st : List String × List String) (chunk_id : String) :
    List String × List String :=
  if chunkIdSkip chunk_id then st
  else
    match findFreshContent env st.2 (pathsToTry env.base (normalizePath chunk_id)) with
    | some pc => (st.1 ++ [pc.2], pc.2 :: st.2)
    | none => st

/-- The list of content blocks get_chunk_content collects: a database pass over
all ids (when the table is importable), then a filesystem pass over all ids,
with one shared seen-content set. -/
def gccList (env : Env) (ids : List String) : List String :=
  if ids.isEmpty then []
  else
    let st1 :=
      match env.db with
      | some tbl => ids.foldl (gccDbStep tbl) ([], [])
      | none => ([], [])
    (ids.foldl (gccFsStep env) st1).1

/-- pinecone_service.get_chunk_content: the collected content blocks joined
with blank lines. -/
def get_chunk_content (env : Env) (ids : List String) : String :=
  String.intercalate "\n\n" (gccList env ids)

/-- One display fragment as produced by get_chunks_for_display (dict keys id,
title, content, metadata). -/
structure DisplayChunk where
  id : String
  title : String
  content : String
  metadata : List (String × String)
deriving DecidableEq, Repr

/-- Metadata mapping lookup (`metadata.get(key)`). -/
def metaLookup (md : List (String × String)) (k : String) : Option String :=
  (md.find? (fun e => e.1 == k)).map (fun e => e.2)

/-- Display title for a database chunk: the metadata document_title plus chunk
number when the metadata mapping is truthy and carries one, else the owning
document's title (or "Unknown Document") plus the chunk_id. -/
def dbDisplayTitle (c : ChunkRec) : String :=
  match (if c.metadata.isEmpty then none else metaLookup c.metadata "document_title") with
  | some dt => dt ++ " - Chunk " ++ (metaLookup c.metadata "chunk_number").getD "?"
  | none => (c.docTitle.getD "Unknown Document") ++ " - " ++ c.chunk_id

/-- One step of get_chunks_for_display's database pass. -/
def displayDbStep (tbl : List ChunkRec) (st : List DisplayChunk × List String) (chunk_id : String) :
    List DisplayChunk × List String :=
  match dbFirst tbl chunk_id with
  | some c =>
    if c.content ≠ "" ∧ c.content ∉ st.2 then
      (st.1 ++ [⟨c.chunk_id, dbDisplayTitle c, c.content, c.metadata⟩], c.content :: st.2)
    else st
  | none => st

/-- Display title for a filesystem chunk: the filename alone when the file sits
directly in a directory named "chunks", else parent directory slash filename. -/
def fsDisplayTitle (p : String) : String :=
  let filename := pathName p
  let parent_dir := parentName p
  if parent_dir = "chunks" then filename else parent_dir ++ "/" ++ filename

/-- One step of get_chunks_for_display's filesystem pass: skip a database-
pattern id only when an entry with that id was already collected; otherwise
append a display fragment for the first fresh content among the candidate
paths (the fragment id is the normalised incoming identifier, its metadata
records the path actually read). -/
def displayFsStep (env : Env) (st : List DisplayChunk × List String) (chunk_id : String) :
    List DisplayChunk × List String :=
  if chunkIdSkip chunk_id && st.1.any (fun c => c.id == chunk_id) then st
  else
    match findFreshContent env st.2 (pathsToTry env.base (normalizePath chunk_id)) with
    | some pc =>
      (st.1 ++ [⟨normalizePath chunk_id, fsDisplayTitle pc.1, pc.2, [("file_path", pc.1)]⟩],
        pc.2 :: st.2)
    | none => st

/-- pinecone_service.get_chunks_for_display: a database pass over the first
max_chunks ids, then — when slots remain — a filesystem pass over the first
remaining_slots ids, sharing one seen-content set.  The source declares
`max_chunks=20` as default; call sites pass it explicitly here. -/
def get_chunks_for_display (env : Env) (ids : List String) (max_chunks : Nat) : List DisplayChunk :=
  if ids.isEmpty then []
  else
    let st1 :=
      match env.db with
      | some tbl => (ids.take max_chunks).foldl (displayDbStep tbl) ([], [])
      | none => ([], [])
    let remaining : Int := (max_chunks : Int) - st1.1.length
    if remaining ≤ 0 then st1.1
    else ((ids.take remaining.toNat).foldl (displayFsStep env) st1).1

/-- Pipeline stages, recorded in order as the orchestrator reaches them; a
stage absent from the trace was never invoked. -/
inductive Stage where
  | embed
  | search
  | resolve
  | history
  | generate
  | logTurn
deriving DecidableEq, Repr

/-- One entry of the `chunks` list process_query builds for the frontend
(dict keys id, title, path, content). -/
structure FrontChunk where
  id : String
  title : String
  path : String
  content : String
deriving DecidableEq, Repr

/-- The value of process_query, plus the session-store state after its logging
step and the trace of stages invoked. -/
structure PipeResult where
  response : String
  chunks : List FrontChunk
  redis : RedisState
  trace : List Stage

/-- The os.walk search of rag_service.py lines 59-62: the first file below the
chunks directory whose name is the wanted filename (walk order modelled as the
order of the filesystem map). -/
def walkFind (env : Env) (dir filename : String) : Option String :=
  ((env.fs.map (fun e => e.1)).find? (fun p =>
    strStartsWith p (dir ++ "/") && pathName p == filename))

/-- The path-resolution ladder of rag_service.py lines 45-65: the path itself
when it exists, else the basename inside the chunks directory, else a
recursive search below the chunks directory. -/
def resolveDisplayPath (env : Env) (path : String) : Option String :=
  if (fsLookup env path).isSome then some path
  else
    let filename := pathName path
    let chunk_path := pyJoin (chunksDirOf env.base) filename
    if (fsLookup env chunk_path).isSome then some chunk_path
    else walkFind env (chunksDirOf env.base) filename

/-- The title heuristic of rag_service.py lines 74-98: document name is the
first path component containing an underscore and not prefixed "chunk_"
(underscores and hyphens turned into spaces); section is the first component
prefixed "ch" and longer than two characters (underscores turned into
spaces); fall back to the filename. -/
def displayTitleFromPath (file_path : String) : String :=
  let parts := (splitOnChar '/' file_path).filter (fun s => s ≠ "")
  let doc_name := (parts.find? (fun part =>
      part.data.contains '_' && !strStartsWith part "chunk_")).map (fun part =>
        replaceChar '-' ' ' (replaceChar '_' ' ' part))
  let sectionPart := (parts.find? (fun part =>
      strStartsWith part "ch" && decide (part.data.length > 2))).map (fun part =>
        replaceChar '_' ' ' part)
  match doc_name, sectionPart with
  | some d, some s => d ++ " - " ++ s
  | some d, none => d
  | none, _ => pathName file_path

/-- `os.path.relpath(file_path, BASE_DIR)`, modelled for the case the code
exercises (a file below BASE_DIR); for paths elsewhere the source can produce
a dot-dot-relative form or fall back to `str(file_path)` on ValueError — both
collapsed to the path itself. -/
def relPath (file_path base : String) : String :=
  if strStartsWith file_path (base ++ "/") then strDrop file_path (base ++ "/").data.length
  else file_path

/-- The body of the chunks-for-the-frontend loop of process_query (rag_service
lines 42-114): resolve the path, read the file, derive title and relative
path; an unresolvable path or read failure leaves the list unchanged. -/
def frontChunkStep (env : Env) (acc : List FrontChunk) (path : String) : List FrontChunk :=
  match resolveDisplayPath env path with
  | none => acc
  | some file_path =>
    match fsLookup env file_path with
    | none => acc
    | some content =>
      acc ++ [⟨pathName file_path, displayTitleFromPath file_path,
              relPath file_path env.base, content⟩]

/-- The chunks list process_query prepares for the frontend. -/
def buildFrontChunks (env : Env) (paths : List String) : List FrontChunk :=
  paths.foldl (frontChunkStep env) []

/-- rag_service.process_query: embed, search (top_k 50, the source default),
resolve context, build frontend chunks, load history when a session id is
present, build the prompt, generate, and log the user/assistant turn pair
when a session id is present.  A falsy embedding (None or empty vector) and
an empty search result short-circuit with their fixed messages and no
chunks. -/
def process_query (env : Env) (rs : RedisState) (query : String) (chat_id : Option String) :
    PipeResult :=
  let e := env.embed query
  if e = none ∨ e = some [] then
    { response := "Failed to generate embeddings for your query.", chunks := [],
      redis := rs, trace := [Stage.embed] }
  else
    let chunk_paths := search_similar_documents env (e.getD []) 50
    if chunk_paths.isEmpty then
      { response := "No relevant documentation found for your query.", chunks := [],
        redis := rs, trace := [Stage.embed, Stage.search] }
    else
      let context := get_chunk_content env chunk_paths
      let chunks := buildFrontChunks env chunk_paths
      let chat_history :=
        match chat_id with
        | some cid => format_chat_history_for_prompt rs cid
        | none => ""
      let prompt := create_prompt query context chat_history
      let response := env.generate prompt
      let rs2 :=
        match chat_id with
        | some cid =>
          (log_message (log_message rs cid "user" query env.now).2
            cid "assistant" response env.now).2
        | none => rs
      { response := response, chunks := chunks, redis := rs2,
        trace := [Stage.embed, Stage.search, Stage.resolve] ++
          (match chat_id with | some _ => [Stage.history] | none => []) ++
          [Stage.generate] ++
          (match chat_id with | some _ => [Stage.logTurn, Stage.logTurn] | none => []) }

/-- The value of the submit-query endpoint: a 400 rejection or the pipeline
result. -/
inductive PostResult where
  | badRequest (error : String)
  | ok (result : PipeResult)

/-- Whether the endpoint rejected the request. -/
def isBadRequest : PostResult → Bool
  | PostResult.badRequest _ => true
  | PostResult.ok _ => false

/-- api/views.ChatView.post: `request.data.get('query')` is `none` for a
missing key; `if not query` rejects exactly the missing and empty-string
cases, every other string reaches process_query. -/
def chatView_post (env : Env) (rs : RedisState) (query chat_id : Option String) : PostResult :=
  match query with
  | none => PostResult.badRequest "Query is required"
  | some q =>
    if q = "" then PostResult.badRequest "Query is required"
    else PostResult.ok (process_query env rs q chat_id)

/-- An all-empty, available session store, used as a concrete state in
witnesses. -/
def rs0 : RedisState :=
  { available := true, hashes := fun _ => [], lists := fun _ => [] }

/-- An unavailable session store with the same (unreachable) contents. -/
def rsDown : RedisState :=
  { available := false, hashes := fun _ => [], lists := fun _ => [] }

/-- Two concrete chunk rows whose recency order is the reverse of their
dot-product order against the query vector [1]: cA is older but more
similar, cB is newer but orthogonal. -/
def chunkA : ChunkRec :=
  { chunk_id := "cA", content := "content A", embedding := some [1],
    metadata := [], created_at := 1, docTitle := some "Doc" }

/-- The newer, less similar chunk row. -/
def chunkB : ChunkRec :=
  { chunk_id := "cB", content := "content B", embedding := some [0],
    metadata := [], created_at := 2, docTitle := some "Doc" }

/-- Concrete environment for the fallback-ranking counterexample: the vector
index answers with zero matches, the relational store holds chunkA and
chunkB, and the other collaborators are inert. -/
def envFallback : Env :=
  { embed := fun _ => some [1], pinecone := fun _ _ => some [],
    db := some [chunkA, chunkB], fs := [], base := "/app",
    generate := fun _ => "GEN", now := "t0" }

/-- Concrete environment in which the search stage finds one candidate
(file_path "missing.txt") but nothing resolves: the relational store is
unavailable and the filesystem is empty; the generation backend returns a
recognisable string. -/
def envNoContent : Env :=
  { embed := fun _ => some [1],
    pinecone := fun _ _ => some [{ chunk_id := none, file_path := some "missing.txt" }],
    db := none, fs := [], base := "/app",
    generate := fun _ => "GENERATED ANSWER", now := "t0" }

/-- Concrete environment whose embedding backend always returns the sentinel. -/
def envNoEmbedding : Env :=
  { embed := fun _ => none, pinecone := fun _ _ => some [],
    db := none, fs := [], base := "/app",
    generate := fun _ => "GEN", now := "t0" }

/-! Theorems.  Helper lemmas come first; each claim's theorem carries the
claim id in its doc comment. -/

/-- Appending messages one by one and then reading the history yields the old
history followed by the appended messages, as long as the store is up. -/
theorem logAll_get_chat_history (entries : List (String × String × String)) :
    ∀ rs : RedisState, ∀ chat_id : String, rs.available = true →
      get_chat_history (logAll rs chat_id entries) chat_id =
        get_chat_history rs chat_id ++ entries.map (fun e => ⟨e.1, e.2.1, e.2.2⟩) := by
  induction entries with
  | nil => intro rs chat_id hav; simp [logAll]
  | cons e rest ih =>
    intro rs chat_id hav
    have hstep : (log_message rs chat_id e.1 e.2.1 e.2.2).2.available = true := by
      simp [log_message, hav]
    have h2 := ih (log_message rs chat_id e.1 e.2.1 e.2.2).2 chat_id hstep
    simp only [logAll, List.foldl_cons] at h2 ⊢
    rw [h2]
    simp [get_chat_history, log_message, hav]

/-- A left fold preserves any invariant its step preserves on the members of
the folded list. -/
theorem foldl_preserves {α β : Type} (P : β → Prop) (step : β → α → β)
    (l : List α) (st : β) (hstep : ∀ s a, a ∈ l → P s → P (step s a)) (h0 : P st) :
    P (l.foldl step st) := by
  induction l generalizing st with
  | nil => simpa using h0
  | cons a rest ih =>
    simp only [List.foldl_cons]
    exact ih (step st a)
      (fun s b hb hs => hstep s b (List.mem_cons_of_mem a hb) hs)
      (hstep st a (List.mem_cons_self a rest) h0)

/-- Appending a fresh element keeps a list duplicate-free. -/
theorem nodup_concat {α : Type} (l : List α) (c : α) (h : l.Nodup) (hc : c ∉ l) :
    (l ++ [c]).Nodup := by
  simp [List.nodup_append, h, hc]

/-- The accumulator-inside-seen invariant of the extraction loop: one step
keeps the collected identifiers duplicate-free and recorded in the seen set,
as long as the match's file_path is already separator-normalised. -/
theorem extractStep_preserves (m : PMatch) (st : List String × List String)
    (hm : normalizePath (m.file_path.getD "") = m.file_path.getD "")
    (h : st.1.Nodup ∧ ∀ x ∈ st.1, x ∈ st.2) :
    (extractStep st m).1.Nodup ∧ ∀ x ∈ (extractStep st m).1, x ∈ (extractStep st m).2 := by
  obtain ⟨hnd, hsub⟩ := h
  unfold extractStep
  split
  · next hc =>
    refine ⟨nodup_concat _ _ hnd (fun hmem => hc.2 (hsub _ hmem)), ?_⟩
    intro x hx
    rcases List.mem_append.mp hx with hx | hx
    · exact List.mem_cons_of_mem _ (hsub x hx)
    · simp only [List.mem_singleton] at hx
      subst hx
      exact List.mem_cons_self _ _
  · split
    · next hf =>
      rw [hm]
      refine ⟨nodup_concat _ _ hnd (fun hmem => hf.2 (hsub _ hmem)), ?_⟩
      intro x hx
      rcases List.mem_append.mp hx with hx | hx
      · exact List.mem_cons_of_mem _ (hsub x hx)
      · simp only [List.mem_singleton] at hx
        subst hx
        exact List.mem_cons_self _ _
    · exact ⟨hnd, hsub⟩

/-- Extraction yields pairwise-distinct identifiers whenever every file_path in
the matches is free of backslashes. -/
theorem extract_chunk_ids_nodup_of_normalized (ms : List PMatch)
    (h : fpNormalized ms = true) : (extract_chunk_ids ms).Nodup := by
  have key :
      (ms.foldl extractStep ([], [])).1.Nodup ∧
        ∀ x ∈ (ms.foldl extractStep ([], [])).1, x ∈ (ms.foldl extractStep ([], [])).2 := by
    refine foldl_preserves
      (fun st => st.1.Nodup ∧ ∀ x ∈ st.1, x ∈ st.2) extractStep ms ([], []) ?_ (by simp)
    intro s m hmem hp
    have hm : normalizePath (m.file_path.getD "") = m.file_path.getD "" := by
      have := List.all_eq_true.mp h m hmem
      exact eq_of_beq this
    exact extractStep_preserves m s hm hp
  exact key.1

/-- C6 counterexample: the claim fails twice over.  With two matches carrying
the same backslash file_path, the seen-set test (made on the raw path) misses
the earlier normalised entry and the output repeats an identifier; and a
match whose chunk_id was already emitted by an earlier match falls through to
its file_path, so a file_path is used even though the match has a chunk_id. -/
theorem extract_chunk_ids_claim_fails :
    extract_chunk_ids
        [{ chunk_id := none, file_path := some "a\\b" },
         { chunk_id := none, file_path := some "a\\b" }] = ["a/b", "a/b"] ∧
    ¬ (extract_chunk_ids
        [{ chunk_id := none, file_path := some "a\\b" },
         { chunk_id := none, file_path := some "a\\b" }]).Nodup ∧
    extract_chunk_ids
        [{ chunk_id := some "c", file_path := none },
         { chunk_id := some "c", file_path := some "p" }] = ["c", "p"] := by
  refine ⟨by decide, by decide, by decide⟩

/-- C6 as amended: extraction prefers the chunk_id within a match — whenever a
match has a truthy chunk_id not yet seen, the step appends that chunk_id and
ignores the file_path — and a file_path is used only when the chunk_id is
missing, empty, or was already emitted by an earlier match; the returned
identifiers are pairwise distinct provided every file_path in the matches is
already separator-normalised (deduplication tests the raw file_path but
records the normalised one, so backslash paths can repeat). -/
theorem extract_dedup_and_preference (ms : List PMatch) (h : fpNormalized ms = true) :
    (extract_chunk_ids ms).Nodup ∧
    ∀ (st : List String × List String) (m : PMatch) (c : String),
      m.chunk_id = some c → c ≠ "" → c ∉ st.2 →
      extractStep st m = (st.1 ++ [c], c :: st.2) := by
  refine ⟨extract_chunk_ids_nodup_of_normalized ms h, ?_⟩
  intro st m c hc hne hnotin
  simp [extractStep, truthy, hc, hne, hnotin]

/-- Concrete run of extract_dedup_and_preference on backslash-free matches. -/
theorem extract_dedup_and_preference_witness :
    fpNormalized
        [{ chunk_id := some "c", file_path := some "p" },
         { chunk_id := none, file_path := some "q" }] = true ∧
    (extract_chunk_ids
        [{ chunk_id := some "c", file_path := some "p" },
         { chunk_id := none, file_path := some "q" }]).Nodup :=
  ⟨by decide,
    (extract_dedup_and_preference
      [{ chunk_id := some "c", file_path := some "p" },
       { chunk_id := none, file_path := some "q" }] (by decide)).1⟩

/-- The non-increasing-recency order the fallback sorts by. -/
def createdGE (a b : ChunkRec) : Prop := b.created_at ≤ a.created_at

/-- Insertion into the recency-sorted list is a permutation of consing. -/
theorem insertByCreatedDesc_perm (c : ChunkRec) (l : List ChunkRec) :
    (insertByCreatedDesc c l).Perm (c :: l) := by
  induction l with
  | nil => simp [insertByCreatedDesc]
  | cons x xs ih =>
    unfold insertByCreatedDesc
    split
    · exact List.Perm.refl _
    · exact (List.Perm.cons x ih).trans (List.Perm.swap c x xs)

/-- The fallback ordering is a permutation of the chunks it sorts. -/
theorem orderByCreatedDesc_perm (l : List ChunkRec) : (orderByCreatedDesc l).Perm l := by
  induction l with
  | nil => simp [orderByCreatedDesc]
  | cons x xs ih =>
    simp only [orderByCreatedDesc, List.foldr_cons] at *
    exact (insertByCreatedDesc_perm x _).trans (List.Perm.cons x ih)

/-- Insertion preserves the non-increasing-recency ordering. -/
theorem insertByCreatedDesc_sorted (c : ChunkRec) (l : List ChunkRec)
    (h : l.Pairwise createdGE) : (insertByCreatedDesc c l).Pairwise createdGE := by
  induction l with
  | nil => simp [insertByCreatedDesc, List.pairwise_singleton]
  | cons x xs ih =>
    rw [List.pairwise_cons] at h
    unfold insertByCreatedDesc
    split
    · next hlt =>
      rw [List.pairwise_cons]
      refine ⟨?_, List.pairwise_cons.mpr h⟩
      intro y hy
      rcases List.mem_cons.mp hy with hy | hy
      · subst hy; exact Nat.le_of_lt hlt
      · exact Nat.le_trans (h.1 y hy) (Nat.le_of_lt hlt)
    · next hge =>
      rw [List.pairwise_cons]
      refine ⟨?_, ih h.2⟩
      intro y hy
      have hy2 := (insertByCreatedDesc_perm c xs).mem_iff.mp hy
      rcases List.mem_cons.mp hy2 with hy2 | hy2
      · subst hy2; exact Nat.le_of_not_lt hge
      · exact h.1 y hy2

/-- The fallback ordering lists chunks most recent first (non-increasing
created_at). -/
theorem orderByCreatedDesc_sorted (l : List ChunkRec) :
    (orderByCreatedDesc l).Pairwise createdGE := by
  induction l with
  | nil => simp [orderByCreatedDesc]
  | cons x xs ih =>
    simp only [orderByCreatedDesc, List.foldr_cons] at *
    exact insertByCreatedDesc_sorted x _ ih

/-- C2 counterexample: with the vector index empty and the store holding an
older-but-similar chunk cA (dot product 1 against the query) and a
newer-but-orthogonal chunk cB (dot product 0), search_similar_documents
returns cB before cA — the recency order, which is the reverse of the
descending-dot-product order the claim requires. -/
theorem db_fallback_not_dot_ranked :
    search_similar_documents envFallback [1] 50 = ["cB", "cA"] ∧
    chunkB.chunk_id = "cB" ∧ chunkA.chunk_id = "cA" ∧
    dotProduct [1] (chunkB.embedding.getD []) < dotProduct [1] (chunkA.embedding.getD []) := by
  refine ⟨by decide, rfl, rfl, by decide⟩

/-- C2 as amended: when the vector index yields no identifiers and the
relational store is available, search_similar_documents scans the chunks with
a non-null embedding and returns the chunk_ids of the top_k most recently
created ones — ordered by non-increasing created_at, a permutation prefix of
the scanned chunks, at most top_k long; the query vector plays no role in
the ranking (dot-product ranking exists only in the separate
documents.services.search_chunks). -/
theorem db_fallback_recency (env : Env) (embedding : List Int) (top_k : Nat)
    (tbl : List ChunkRec) (hp : pineconeIds env embedding top_k = [])
    (hdb : env.db = some tbl) :
    search_similar_documents env embedding top_k =
      ((orderByCreatedDesc (tbl.filter (fun c => c.embedding.isSome))).take top_k).map
        (fun c => c.chunk_id) ∧
    (orderByCreatedDesc (tbl.filter (fun c => c.embedding.isSome))).Perm
      (tbl.filter (fun c => c.embedding.isSome)) ∧
    (orderByCreatedDesc (tbl.filter (fun c => c.embedding.isSome))).Pairwise createdGE ∧
    (search_similar_documents env embedding top_k).length ≤ top_k := by
  have h1 : search_similar_documents env embedding top_k =
      ((orderByCreatedDesc (tbl.filter (fun c => c.embedding.isSome))).take top_k).map
        (fun c => c.chunk_id) := by
    cases he : (tbl.filter (fun c => c.embedding.isSome)).isEmpty
    · simp [search_similar_documents, hp, hdb, he]
    · have hnil : tbl.filter (fun c => c.embedding.isSome) = [] :=
        List.isEmpty_iff.mp he
      simp [search_similar_documents, hp, hdb, he, hnil, orderByCreatedDesc]
  refine ⟨h1, orderByCreatedDesc_perm _, orderByCreatedDesc_sorted _, ?_⟩
  rw [h1]
  calc (((orderByCreatedDesc (tbl.filter (fun c => c.embedding.isSome))).take top_k).map
          (fun c => c.chunk_id)).length
      = ((orderByCreatedDesc (tbl.filter (fun c => c.embedding.isSome))).take top_k).length :=
        List.length_map _ _
    _ ≤ top_k := List.length_take_le _ _

/-- Concrete run of db_fallback_recency on the two-chunk store. -/
theorem db_fallback_recency_witness :
    pineconeIds envFallback [1] 50 = [] ∧ envFallback.db = some [chunkA, chunkB] ∧
    search_similar_documents envFallback [1] 50 = ["cB", "cA"] ∧
    (search_similar_documents envFallback [1] 50).length ≤ 50 := by
  have h := db_fallback_recency envFallback [1] 50 [chunkA, chunkB] rfl rfl
  refine ⟨rfl, rfl, ?_, h.2.2.2⟩
  rw [h.1]
  decide

/-- C9: create_prompt is a total pure function of its three inputs: for every
query, context and chat history — malformed or not — it returns exactly the
fixed template, which places the localized instruction header first, then the
history block, then the query, then the context block (then the fixed
localized closing instruction).  Determinism and the absence of a failure
mode are immediate: it is a function into String defined on all inputs. -/
theorem create_prompt_fixed_order (query context chat_history : String) :
    create_prompt query context chat_history =
      promptInstructionHeader ++ chat_history ++ promptQueryMarker ++ query ++
        promptContextMarker ++ context ++ promptFooter := rfl

/-- C5: on an available store, a freshly created session (one whose message
list is still empty) reads back as the empty history, and after appending any
sequence of (role, content) pairs via log_message the history is exactly
those messages, in append order, with role and content unmodified. -/
theorem session_history_roundtrip (rs : RedisState) (chat_id now0 : String)
    (entries : List (String × String × String))
    (hav : rs.available = true) (hfresh : rs.lists (messagesKey chat_id) = []) :
    get_chat_history (create_chat_session rs chat_id now0).2 chat_id = [] ∧
    get_chat_history (logAll rs chat_id entries) chat_id =
      entries.map (fun e => ⟨e.1, e.2.1, e.2.2⟩) := by
  have h0 : get_chat_history rs chat_id = [] := by
    simp [get_chat_history, hav, hfresh]
  constructor
  · simp [get_chat_history, create_chat_session, hav, hfresh]
  · rw [logAll_get_chat_history entries rs chat_id hav, h0]
    simp

/-- Concrete run of session_history_roundtrip: two messages logged to a fresh
session on the empty store read back verbatim. -/
theorem session_history_roundtrip_witness :
    rs0.available = true ∧ rs0.lists (messagesKey "s") = [] ∧
    (get_chat_history (create_chat_session rs0 "s" "t0").2 "s" = [] ∧
      get_chat_history
          (logAll rs0 "s" [("user", "hoi", "t1"), ("assistant", "hallo", "t2")]) "s" =
        [⟨"user", "hoi", "t1"⟩, ⟨"assistant", "hallo", "t2"⟩]) := by
  refine ⟨rfl, rfl, ?_⟩
  simpa using
    session_history_roundtrip rs0 "s" "t0"
      [("user", "hoi", "t1"), ("assistant", "hallo", "t2")] rfl rfl

/-- C8: when the session store is unavailable, log_message returns the failure
flag with the state unchanged (the append is a no-op) and get_chat_history
returns the empty sequence; neither operation propagates the failure. -/
theorem store_failure_swallowed (rs : RedisState) (chat_id role content now0 : String)
    (hdown : rs.available = false) :
    log_message rs chat_id role content now0 = (false, rs) ∧
    get_chat_history rs chat_id = [] := by
  constructor <;> simp [log_message, get_chat_history, hdown]

/-- Concrete run of store_failure_swallowed on the down store. -/
theorem store_failure_swallowed_witness :
    rsDown.available = false ∧
    (log_message rsDown "s" "user" "hoi" "t1" = (false, rsDown) ∧
      get_chat_history rsDown "s" = []) :=
  ⟨rfl, store_failure_swallowed rsDown "s" "user" "hoi" "t1" rfl⟩

/-- C3 counterexample: the claim says a whitespace-only query is rejected with
a 400 before the pipeline runs, but `if not query` is false on " " (a truthy
Python string), so the endpoint invokes process_query on it. -/
theorem whitespace_query_reaches_pipeline :
    (" ").data.all Char.isWhitespace = true ∧
    isBadRequest (chatView_post envNoEmbedding rs0 (some " ") none) = false ∧
    chatView_post envNoEmbedding rs0 (some " ") none =
      PostResult.ok (process_query envNoEmbedding rs0 " " none) := by
  refine ⟨by decide, rfl, rfl⟩

/-- C3 as amended: a missing or empty query text is rejected with the fixed
400 error before process_query is invoked (the result is the same for every
environment, so the pipeline cannot have run); a whitespace-only non-empty
query is not rejected. -/
theorem empty_or_missing_query_rejected (env : Env) (rs : RedisState)
    (query chat_id : Option String) (h : query = none ∨ query = some "") :
    chatView_post env rs query chat_id = PostResult.badRequest "Query is required" := by
  rcases h with h | h <;> subst h <;> simp [chatView_post]

/-- Concrete run of empty_or_missing_query_rejected on the empty query. -/
theorem empty_or_missing_query_rejected_witness :
    ((some "" : Option String) = none ∨ (some "" : Option String) = some "") ∧
    chatView_post envNoEmbedding rs0 (some "") none =
      PostResult.badRequest "Query is required" :=
  ⟨Or.inr rfl,
    empty_or_missing_query_rejected envNoEmbedding rs0 (some "") none (Or.inr rfl)⟩

/-- C4: when the embedding adapter returns the "no embedding" sentinel, the
pipeline immediately returns the fixed failed-embeddings message with an
empty fragment list; the search, resolution and generation stages never
appear in the trace.  The environment is arbitrary, so the result is also
independent of the search, resolution and generation collaborators. -/
theorem embedding_sentinel_short_circuits (env : Env) (rs : RedisState)
    (query : String) (chat_id : Option String) (h : env.embed query = none) :
    (process_query env rs query chat_id).response =
        "Failed to generate embeddings for your query." ∧
    (process_query env rs query chat_id).chunks = [] ∧
    Stage.search ∉ (process_query env rs query chat_id).trace ∧
    Stage.resolve ∉ (process_query env rs query chat_id).trace ∧
    Stage.generate ∉ (process_query env rs query chat_id).trace := by
  have hpq : process_query env rs query chat_id =
      { response := "Failed to generate embeddings for your query.", chunks := [],
        redis := rs, trace := [Stage.embed] } := by
    simp [process_query, h]
  rw [hpq]
  refine ⟨rfl, rfl, by simp, by simp, by simp⟩

/-- Concrete run of embedding_sentinel_short_circuits on an environment whose
embedding backend always fails. -/
theorem embedding_sentinel_short_circuits_witness :
    envNoEmbedding.embed "vraag" = none ∧
    ((process_query envNoEmbedding rs0 "vraag" none).response =
        "Failed to generate embeddings for your query." ∧
      (process_query envNoEmbedding rs0 "vraag" none).chunks = [] ∧
      Stage.search ∉ (process_query envNoEmbedding rs0 "vraag" none).trace ∧
      Stage.resolve ∉ (process_query envNoEmbedding rs0 "vraag" none).trace ∧
      Stage.generate ∉ (process_query envNoEmbedding rs0 "vraag" none).trace) :=
  ⟨rfl, embedding_sentinel_short_circuits envNoEmbedding rs0 "vraag" none rfl⟩

/-- The candidate-path walk only ever returns truthy content that is not in
the seen set it was given. -/
theorem findFreshContent_fresh (env : Env) (seen : List String) :
    ∀ ps : List String, ∀ pc : String × String,
      findFreshContent env seen ps = some pc → pc.2 ≠ "" ∧ pc.2 ∉ seen := by
  intro ps
  induction ps with
  | nil => intro pc h; simp [findFreshContent] at h
  | cons p rest ih =>
    intro pc h
    unfold findFreshContent at h
    cases hf : fsLookup env p with
    | none =>
      rw [hf] at h
      exact ih pc h
    | some content =>
      rw [hf] at h
      dsimp only at h
      by_cases hc : content ≠ "" ∧ content ∉ seen
      · rw [if_pos hc] at h
        cases h
        exact hc
      · rw [if_neg hc] at h
        exact ih pc h

/-- One step of get_chunk_content's database pass keeps the collected contents
duplicate-free and inside the seen set. -/
theorem gccDbStep_preserves (tbl : List ChunkRec) (st : List String × List String)
    (chunk_id : String) (h : st.1.Nodup ∧ ∀ x ∈ st.1, x ∈ st.2) :
    (gccDbStep tbl st chunk_id).1.Nodup ∧
      ∀ x ∈ (gccDbStep tbl st chunk_id).1, x ∈ (gccDbStep tbl st chunk_id).2 := by
  obtain ⟨hnd, hsub⟩ := h
  unfold gccDbStep
  cases dbFirst tbl chunk_id with
  | none => exact ⟨hnd, hsub⟩
  | some c =>
    dsimp only
    split
    · next hc =>
      refine ⟨nodup_concat _ _ hnd (fun hmem => hc.2 (hsub _ hmem)), ?_⟩
      intro x hx
      rcases List.mem_append.mp hx with hx | hx
      · exact List.mem_cons_of_mem _ (hsub x hx)
      · simp only [List.mem_singleton] at hx
        subst hx
        exact List.mem_cons_self _ _
    · exact ⟨hnd, hsub⟩

/-- One step of get_chunk_content's filesystem pass keeps the collected
contents duplicate-free and inside the seen set. -/
theorem gccFsStep_preserves (env : Env) (st : List String × List String)
    (chunk_id : String) (h : st.1.Nodup ∧ ∀ x ∈ st.1, x ∈ st.2) :
    (gccFsStep env st chunk_id).1.Nodup ∧
      ∀ x ∈ (gccFsStep env st chunk_id).1, x ∈ (gccFsStep env st chunk_id).2 := by
  obtain ⟨hnd, hsub⟩ := h
  unfold gccFsStep
  split
  · exact ⟨hnd, hsub⟩
  · cases hfind : findFreshContent env st.2 (pathsToTry env.base (normalizePath chunk_id)) with
    | none => exact ⟨hnd, hsub⟩
    | some pc =>
      have hfresh := findFreshContent_fresh env st.2 _ pc hfind
      dsimp only
      refine ⟨nodup_concat _ _ hnd (fun hmem => hfresh.2 (hsub _ hmem)), ?_⟩
      intro x hx
      rcases List.mem_append.mp hx with hx | hx
      · exact List.mem_cons_of_mem _ (hsub x hx)
      · simp only [List.mem_singleton] at hx
        subst hx
        exact List.mem_cons_self _ _

/-- C7: the content blocks get_chunk_content collects are pairwise distinct —
each distinct content text is emitted at most once in the concatenated
context, however often a reference repeats or however many distinct
references resolve to identical text (the statement is universal in `ids`, so
it covers lists with repeated references) — and the concatenated context is
exactly those blocks joined by blank lines.  Byte-identity of resolving the
same reference twice is definitional here: resolution is a pure function of
the environment and the reference list. -/
theorem gcc_no_duplicate_blocks (env : Env) (ids : List String) :
    (gccList env ids).Nodup ∧
    get_chunk_content env ids = String.intercalate "\n\n" (gccList env ids) := by
  refine ⟨?_, rfl⟩
  unfold gccList
  cases hids : ids.isEmpty
  · dsimp only
    rw [if_neg (by simp [hids])]
    have hdbinv :
        (match env.db with
          | some tbl => ids.foldl (gccDbStep tbl) ([], [])
          | none => (([] : List String), ([] : List String))).1.Nodup ∧
        ∀ x ∈ (match env.db with
          | some tbl => ids.foldl (gccDbStep tbl) ([], [])
          | none => (([] : List String), ([] : List String))).1,
          x ∈ (match env.db with
            | some tbl => ids.foldl (gccDbStep tbl) ([], [])
            | none => (([] : List String), ([] : List String))).2 := by
      cases env.db with
      | none => simp
      | some tbl =>
        exact foldl_preserves (fun st => st.1.Nodup ∧ ∀ x ∈ st.1, x ∈ st.2)
          (gccDbStep tbl) ids ([], [])
          (fun s a _ hp => gccDbStep_preserves tbl s a hp) (by simp)
    exact (foldl_preserves (fun st => st.1.Nodup ∧ ∀ x ∈ st.1, x ∈ st.2)
      (gccFsStep env) ids _
      (fun s a _ hp => gccFsStep_preserves env s a hp) hdbinv).1
  · simp [hids]

/-- A left fold whose step grows the collected list by at most one element per
item is bounded by the initial length plus the number of items. -/
theorem foldl_length_bound {α β γ : Type} (step : List β × γ → α → List β × γ)
    (hstep : ∀ st a, (step st a).1.length ≤ st.1.length + 1) :
    ∀ (l : List α) (st : List β × γ),
      (l.foldl step st).1.length ≤ st.1.length + l.length := by
  intro l
  induction l with
  | nil => intro st; simp
  | cons a rest ih =>
    intro st
    calc (List.foldl step (step st a) rest).1.length
        ≤ (step st a).1.length + rest.length := ih _
      _ ≤ st.1.length + 1 + rest.length := Nat.add_le_add_right (hstep st a) _
      _ = st.1.length + (a :: rest).length := by simp [List.length_cons]; omega

/-- One display step appends at most one fragment (database pass). -/
theorem displayDbStep_length (tbl : List ChunkRec) (st : List DisplayChunk × List String)
    (chunk_id : String) :
    (displayDbStep tbl st chunk_id).1.length ≤ st.1.length + 1 := by
  unfold displayDbStep
  cases dbFirst tbl chunk_id with
  | none => simp
  | some c =>
    dsimp only
    split
    · simp
    · simp

/-- One display step appends at most one fragment (filesystem pass). -/
theorem displayFsStep_length (env : Env) (st : List DisplayChunk × List String)
    (chunk_id : String) :
    (displayFsStep env st chunk_id).1.length ≤ st.1.length + 1 := by
  unfold displayFsStep
  split
  · simp
  · cases hfind : findFreshContent env st.2 (pathsToTry env.base (normalizePath chunk_id)) with
    | none => simp
    | some pc => simp

/-- One step of the display database pass keeps the fragment contents
duplicate-free and inside the seen set. -/
theorem displayDbStep_preserves (tbl : List ChunkRec) (st : List DisplayChunk × List String)
    (chunk_id : String)
    (h : (st.1.map (fun d => d.content)).Nodup ∧ ∀ x ∈ st.1.map (fun d => d.content), x ∈ st.2) :
    ((displayDbStep tbl st chunk_id).1.map (fun d => d.content)).Nodup ∧
      ∀ x ∈ (displayDbStep tbl st chunk_id).1.map (fun d => d.content),
        x ∈ (displayDbStep tbl st chunk_id).2 := by
  obtain ⟨hnd, hsub⟩ := h
  unfold displayDbStep
  cases dbFirst tbl chunk_id with
  | none => exact ⟨hnd, hsub⟩
  | some c =>
    dsimp only
    split
    · next hc =>
      constructor
      · rw [List.map_append]
        exact nodup_concat _ _ hnd (fun hmem => hc.2 (hsub _ hmem))
      · intro x hx
        rw [List.map_append, List.mem_append] at hx
        rcases hx with hx | hx
        · exact List.mem_cons_of_mem _ (hsub x hx)
        · simp only [List.map_cons, List.map_nil, List.mem_singleton] at hx
          subst hx
          exact List.mem_cons_self _ _
    · exact ⟨hnd, hsub⟩

/-- One step of the display filesystem pass keeps the fragment contents
duplicate-free and inside the seen set. -/
theorem displayFsStep_preserves (env : Env) (st : List DisplayChunk × List String)
    (chunk_id : String)
    (h : (st.1.map (fun d => d.content)).Nodup ∧ ∀ x ∈ st.1.map (fun d => d.content), x ∈ st.2) :
    ((displayFsStep env st chunk_id).1.map (fun d => d.content)).Nodup ∧
      ∀ x ∈ (displayFsStep env st chunk_id).1.map (fun d => d.content),
        x ∈ (displayFsStep env st chunk_id).2 := by
  obtain ⟨hnd, hsub⟩ := h
  unfold displayFsStep
  split
  · exact ⟨hnd, hsub⟩
  · cases hfind : findFreshContent env st.2 (pathsToTry env.base (normalizePath chunk_id)) with
    | none => exact ⟨hnd, hsub⟩
    | some pc =>
      have hfresh := findFreshContent_fresh env st.2 _ pc hfind
      dsimp only
      constructor
      · rw [List.map_append]
        exact nodup_concat _ _ hnd (fun hmem => hfresh.2 (hsub _ hmem))
      · intro x hx
        rw [List.map_append, List.mem_append] at hx
        rcases hx with hx | hx
        · exact List.mem_cons_of_mem _ (hsub x hx)
        · simp only [List.map_cons, List.map_nil, List.mem_singleton] at hx
          subst hx
          exact List.mem_cons_self _ _

/-- C10: get_chunks_for_display returns at most max_chunks fragments, and the
content fields of the returned fragments are pairwise distinct — the
database pass and the filesystem fallback pass share one seen-content set,
so overlapping identifiers cannot introduce duplicate contents. -/
theorem display_bounded_and_distinct (env : Env) (ids : List String) (max_chunks : Nat) :
    (get_chunks_for_display env ids max_chunks).length ≤ max_chunks ∧
    ((get_chunks_for_display env ids max_chunks).map (fun d => d.content)).Nodup := by
  unfold get_chunks_for_display
  cases hids : ids.isEmpty
  · dsimp only
    rw [if_neg (by simp [hids])]
    set st1 :=
      (match env.db with
        | some tbl => (ids.take max_chunks).foldl (displayDbStep tbl) ([], [])
        | none => (([] : List DisplayChunk), ([] : List String))) with hst1
    have hlen1 : st1.1.length ≤ max_chunks := by
      rw [hst1]
      cases env.db with
      | none => simp
      | some tbl =>
        calc ((ids.take max_chunks).foldl (displayDbStep tbl) ([], [])).1.length
            ≤ ([] : List DisplayChunk).length + (ids.take max_chunks).length :=
              foldl_length_bound (displayDbStep tbl) (displayDbStep_length tbl) _ _
          _ ≤ max_chunks := by
              simp only [List.length_nil, Nat.zero_add]
              exact List.length_take_le _ _
    have hinv1 : (st1.1.map (fun d => d.content)).Nodup ∧
        ∀ x ∈ st1.1.map (fun d => d.content), x ∈ st1.2 := by
      rw [hst1]
      cases env.db with
      | none => simp
      | some tbl =>
        exact foldl_preserves
          (fun st => (st.1.map (fun d => d.content)).Nodup ∧
            ∀ x ∈ st.1.map (fun d => d.content), x ∈ st.2)
          (displayDbStep tbl) (ids.take max_chunks) ([], [])
          (fun s a _ hp => displayDbStep_preserves tbl s a hp) (by simp)
    by_cases hrem : (max_chunks : Int) - st1.1.length ≤ 0
    · rw [if_pos hrem]
      exact ⟨hlen1, hinv1.1⟩
    · rw [if_neg hrem]
      constructor
      · have hb :
            ((ids.take ((max_chunks : Int) - st1.1.length).toNat).foldl
                (displayFsStep env) st1).1.length ≤
              st1.1.length + (ids.take ((max_chunks : Int) - st1.1.length).toNat).length :=
          foldl_length_bound (displayFsStep env) (displayFsStep_length env) _ _
        have ht : (ids.take ((max_chunks : Int) - st1.1.length).toNat).length ≤
            ((max_chunks : Int) - st1.1.length).toNat := List.length_take_le _ _
        omega
      · exact (foldl_preserves
          (fun st => (st.1.map (fun d => d.content)).Nodup ∧
            ∀ x ∈ st.1.map (fun d => d.content), x ∈ st.2)
          (displayFsStep env) (ids.take ((max_chunks : Int) - st1.1.length).toNat) st1
          (fun s a _ hp => displayFsStep_preserves env s a hp) hinv1).1
  · simp [hids]

/-- C1 (code bug, evaluated at the failing input): in envNoContent the search
stage returns the candidate "missing.txt" but no identifier resolves to any
content, so the resolved context is empty — yet process_query does not return
a fixed "no relevant content" response: it proceeds to the generation stage
and returns the generator's output (with an empty fragment list).  The
source has no such branch; the repository's own tests compare against a
"No relevant content found." sentinel that no function returns. -/
theorem empty_context_still_generates :
    search_similar_documents envNoContent [1] 50 = ["missing.txt"] ∧
    get_chunk_content envNoContent ["missing.txt"] = "" ∧
    (process_query envNoContent rs0 "vraag" none).response = "GENERATED ANSWER" ∧
    (process_query envNoContent rs0 "vraag" none).response ≠
      "No relevant documentation found for your query." ∧
    (process_query envNoContent rs0 "vraag" none).chunks = [] ∧
    Stage.generate ∈ (process_query envNoContent rs0 "vraag" none).trace := by
  refine ⟨by decide, by decide, by decide, by decide, by decide, by decide⟩

end LogiusChat
